import Mathlib

/-!
A Lean 4 model of the fluentflag Go library (mattmc3/fluentflag, file
fluentflag.go), together with theorems checking the library's
natural-language specification against this model.

Modelling conventions:
* Go machine integers become Nat/Int with explicit range checks against
  powers of two (the library targets 64-bit platforms, so both the Go
  types int and uint are 64 bits wide).
* Go pointers become indices into explicit heaps carried by a World
  state record; FluentFlag descriptors, scalar storage cells and
  accumulating slice sinks each live in their own heap, so that pointer
  aliasing (the same descriptor object retained by the builder and still
  reachable by the caller) is represented faithfully.
* Go panics inside the builder are modelled as error results; where a
  panic happens after state mutations (Build, BuildSlice), the operation
  returns the mutated state together with an optional fatal error, so the
  partially-updated state remains observable, exactly as it is in Go after
  recovering from the panic.
* The strconv parsing functions used by fluentflag.parse are not part of
  this repository; they are modelled below from the documented and
  well-known behaviour of the Go standard library (strconv.ParseBool,
  Atoi, ParseInt, ParseUint, ParseFloat), at the level of observable
  acceptance and decoded values.  Floating-point values are represented
  as exact rationals (plus infinities and NaN) rather than IEEE-754
  doubles; no theorem below depends on rounding.
-/

namespace Fluentflag

/-! ## Supported flag types (the Go FlagType constraint) -/

/-- The closed set of element types supported by the library:
bool | string | int | int64 | float64 | uint | uint64. -/
inductive Tag where
  | bool
  | str
  | int
  | int64
  | float64
  | uint
  | uint64
deriving DecidableEq, Repr

/-- Model of a Go float64 value as produced by strconv.ParseFloat:
an exact rational for finite decimal or hexadecimal literals, plus the
special values. IEEE-754 rounding is intentionally not modelled; no
claim depends on the rounded value. -/
inductive FloatV where
  | finite (q : Rat)
  | inf (neg : Bool)
  | nan
deriving DecidableEq, Repr

/-- A value of one of the supported flag types. The constructor plays the
role of the Go type parameter T. -/
inductive FlagVal where
  | bool (b : Bool)
  | str (s : String)
  | int (i : Int)
  | int64 (i : Int)
  | float64 (v : FloatV)
  | uint (n : Nat)
  | uint64 (n : Nat)
deriving DecidableEq, Repr

/-- The type tag of a value. -/
def tagOf : FlagVal → Tag
  | .bool _ => .bool
  | .str _ => .str
  | .int _ => .int
  | .int64 _ => .int64
  | .float64 _ => .float64
  | .uint _ => .uint
  | .uint64 _ => .uint64

/-- The Go zero value of each supported type (var v T). -/
def zeroVal : Tag → FlagVal
  | .bool => .bool false
  | .str => .str ""
  | .int => .int 0
  | .int64 => .int64 0
  | .float64 => .float64 (.finite 0)
  | .uint => .uint 0
  | .uint64 => .uint64 0

/-! ## Model of the Go strconv integer and bool parsers -/

/-- Numeric value of a decimal digit character. -/
def digitVal (c : Char) : Nat := c.toNat - 48

/-- Decimal value of a digit list (most significant first). -/
def digitsToNat (cs : List Char) : Nat :=
  cs.foldl (fun n c => 10 * n + digitVal c) 0

/-- Reads a nonempty all-decimal-digit list as a Nat; none otherwise.
This is the digit loop of Go strconv.ParseUint at base 10 (no underscores
are permitted when the base is given explicitly, as fluentflag does).
Go reports a range error as soon as the accumulator passes the cutoff,
while this model reads all digits first and range-checks afterwards; the
two agree on which strings are accepted and on the decoded value. -/
def digitsNat? (cs : List Char) : Option Nat :=
  if cs.isEmpty then none
  else if cs.all (fun c => c.isDigit) then some (digitsToNat cs) else none

/-- Splits a leading ASCII sign off a character list, reporting whether
the sign was a minus. This is the sign handling shared by Go
strconv.ParseInt and the mantissa/exponent scanners of ParseFloat. -/
def signSplit : List Char → Bool × List Char
  | '-' :: rest => (true, rest)
  | '+' :: rest => (false, rest)
  | cs => (false, cs)

/-- Model of Go strconv.ParseUint(s, 10, bitSize): a nonempty run of
decimal digits whose value fits in bitSize bits; no sign is permitted. -/
def goParseUint (s : String) (bitSize : Nat) : Except String Nat :=
  match digitsNat? s.data with
  | none => .error "invalid syntax"
  | some n => if n < 2 ^ bitSize then .ok n else .error "value out of range"

/-- Model of Go strconv.ParseInt(s, 10, bitSize) (and of Atoi when
bitSize is the platform word size 64): an optional sign followed by a
nonempty run of decimal digits, range-checked against the signed width. -/
def goParseInt (s : String) (bitSize : Nat) : Except String Int :=
  let p := signSplit s.data
  match digitsNat? p.2 with
  | none => .error "invalid syntax"
  | some n =>
    if p.1 then
      if n ≤ 2 ^ (bitSize - 1) then .ok (-(n : Int)) else .error "value out of range"
    else
      if n < 2 ^ (bitSize - 1) then .ok (n : Int) else .error "value out of range"

/-- Model of Go strconv.ParseBool: the exact literal spellings accepted
by the Go standard library. -/
def goParseBool (s : String) : Except String Bool :=
  if s = "1" || s = "t" || s = "T" || s = "true" || s = "TRUE" || s = "True" then
    .ok true
  else if s = "0" || s = "f" || s = "F" || s = "false" || s = "FALSE" || s = "False" then
    .ok false
  else .error "invalid syntax"

/-! ## Model of Go strconv.ParseFloat(s, 64)

ParseFloat first checks the special spellings (optionally signed
inf/infinity and unsigned nan, case-insensitively), then reads a
decimal or hexadecimal mantissa with optional exponent, requiring the
whole input to be consumed and, when digit-separating underscores were
seen, re-validating their placement with Go's underscoreOK. -/

/-- True for the ASCII hexadecimal letters a-f and A-F. -/
def hexLetter (c : Char) : Bool :=
  (97 ≤ c.toNat && c.toNat ≤ 102) || (65 ≤ c.toNat && c.toNat ≤ 70)

/-- Numeric value of a hexadecimal digit character. -/
def hexDigitVal (c : Char) : Nat :=
  if c.isDigit then digitVal c
  else if 97 ≤ c.toNat then c.toNat - 87
  else c.toNat - 55

/-- State of the mantissa scanner of Go strconv readFloat: the mantissa
accumulated so far, the number of digits seen after the decimal point,
and the saw-dot / saw-digit / saw-underscore flags. Go truncates the
accumulated mantissa after 19 (decimal) or 16 (hex) digits and
compensates when converting; this model keeps every digit, which yields
the exact (unrounded) value and the same acceptance. -/
structure MantScan where
  mant : Nat := 0
  shift : Nat := 0
  sawdot : Bool := false
  sawdig : Bool := false
  und : Bool := false
deriving DecidableEq, Repr

/-- The mantissa loop of Go strconv readFloat: consumes digits (also hex
letters in hexadecimal mode), at most one decimal point, and
digit-separating underscores, stopping at the first other character. -/
def scanMant (hex : Bool) : List Char → MantScan → MantScan × List Char
  | [], st => (st, [])
  | c :: cs, st =>
    if c = '_' then scanMant hex cs { st with und := true }
    else if c = '.' then
      if st.sawdot then (st, c :: cs)
      else scanMant hex cs { st with sawdot := true }
    else if c.isDigit then
      scanMant hex cs
        { st with
          mant := (if hex then 16 else 10) * st.mant + digitVal c
          shift := if st.sawdot then st.shift + 1 else st.shift
          sawdig := true }
    else if hex && hexLetter c then
      scanMant hex cs
        { st with
          mant := 16 * st.mant + hexDigitVal c
          shift := if st.sawdot then st.shift + 1 else st.shift
          sawdig := true }
    else (st, c :: cs)

/-- The exponent-digit loop of Go strconv readFloat: consumes decimal
digits and underscores, stopping at the first other character. Go caps
the exponent accumulator at 10000 (only the converted value is affected,
in a range where the result saturates anyway); this model keeps the
exact exponent. -/
def scanExpDigits : List Char → Nat → Bool → (Nat × Bool) × List Char
  | [], e, und => ((e, und), [])
  | c :: cs, e, und =>
    if c = '_' then scanExpDigits cs e true
    else if c.isDigit then scanExpDigits cs (10 * e + digitVal c) und
    else ((e, und), c :: cs)

/-- Character classes tracked by Go strconv underscoreOK. -/
inductive SawK where
  | start
  | dig
  | und
  | other
deriving DecidableEq

/-- The scanning loop of Go strconv underscoreOK: an underscore must
immediately follow and be immediately followed by a digit (counting the
base prefix as a digit), and must not end the literal. -/
def underLoop (hex : Bool) : List Char → SawK → Bool
  | [], saw => saw ≠ .und
  | c :: cs, saw =>
    if c.isDigit || (hex && hexLetter c) then underLoop hex cs .dig
    else if c = '_' then
      if saw ≠ .dig then false else underLoop hex cs .und
    else if saw = .und then false
    else underLoop hex cs .other

/-- Model of Go strconv underscoreOK: validates digit-separating
underscores in a numeric literal (optional sign, optional 0b/0o/0x base
prefix, then the number proper). -/
def underscoreOK (s : String) : Bool :=
  let cs := (signSplit s.data).2
  match cs with
  | '0' :: b :: rest =>
    if b = 'x' || b = 'X' then underLoop true rest .dig
    else if b = 'b' || b = 'B' || b = 'o' || b = 'O' then underLoop false rest .dig
    else underLoop false cs .start
  | _ => underLoop false cs .start

/-- Exact rational value of a parsed decimal floating-point literal:
sign, mantissa digits, digits after the dot, exponent and its sign. -/
def decValRat (neg : Bool) (mant shift e : Nat) (eneg : Bool) : Rat :=
  let q : Rat :=
    if eneg then (mant : Rat) / ((10 : Rat) ^ (shift + e))
    else ((mant : Rat) * (10 : Rat) ^ e) / ((10 : Rat) ^ shift)
  if neg then -q else q

/-- Exact rational value of a parsed hexadecimal floating-point literal:
the mantissa is read base 16, the mandatory p-exponent is a power of 2. -/
def hexValRat (neg : Bool) (mant shift e : Nat) (eneg : Bool) : Rat :=
  let base : Rat := (mant : Rat) / ((16 : Rat) ^ shift)
  let q := if eneg then base / ((2 : Rat) ^ e) else base * (2 : Rat) ^ e
  if neg then -q else q

/-- The exponent part of Go strconv readFloat, after the e/E/p/P marker:
an optional sign, then a first character that must be a decimal digit,
then digits and underscores up to the end of the input. -/
def expAccept (cs : List Char) : Option (Bool × Nat × Bool) :=
  let p := signSplit cs
  match p.2 with
  | [] => none
  | c :: _ =>
    if c.isDigit then
      let r := scanExpDigits p.2 0 false
      if r.2.isEmpty then some (p.1, r.1.1, r.1.2) else none
    else none

/-- The decimal branch of Go strconv readFloat plus ParseFloat's
whole-input check: mantissa with at least one digit, optional e/E
exponent, and underscore validation when underscores were seen. -/
def decAccept (s : String) (neg : Bool) (cs : List Char) : Option FloatV :=
  let r := scanMant false cs {}
  if !r.1.sawdig then none
  else
    match r.2 with
    | [] =>
      if r.1.und && !underscoreOK s then none
      else some (.finite (decValRat neg r.1.mant r.1.shift 0 false))
    | c :: t =>
      if c = 'e' ∨ c = 'E' then
        match expAccept t with
        | none => none
        | some (eneg, e, und2) =>
          if (r.1.und || und2) && !underscoreOK s then none
          else some (.finite (decValRat neg r.1.mant r.1.shift e eneg))
      else none

/-- The hexadecimal branch of Go strconv readFloat plus ParseFloat's
whole-input check: hex mantissa with at least one digit and a mandatory
p/P binary exponent. -/
def hexAccept (s : String) (neg : Bool) (cs : List Char) : Option FloatV :=
  let r := scanMant true cs {}
  if !r.1.sawdig then none
  else
    match r.2 with
    | [] => none
    | c :: t =>
      if c = 'p' ∨ c = 'P' then
        match expAccept t with
        | none => none
        | some (eneg, e, und2) =>
          if (r.1.und || und2) && !underscoreOK s then none
          else some (.finite (hexValRat neg r.1.mant r.1.shift e eneg))
      else none

/-- ASCII lower-casing of one character (Go strconv lower). -/
def lowerChar (c : Char) : Char :=
  if 65 ≤ c.toNat ∧ c.toNat ≤ 90 then Char.ofNat (c.toNat + 32) else c

/-- ASCII lower-casing of a string, character by character. -/
def lowerStr (s : String) : String :=
  String.mk (s.data.map lowerChar)

/-- The special spellings accepted by Go strconv ParseFloat: inf and
infinity with an optional sign, and nan without one, case-insensitively. -/
def isSpecialFloat (s : String) : Bool :=
  let t := lowerStr s
  t = "inf" || t = "+inf" || t = "-inf" || t = "infinity" ||
    t = "+infinity" || t = "-infinity" || t = "nan"

/-- The value of a special floating-point spelling. -/
def specialFloatVal (s : String) : FloatV :=
  let t := lowerStr s
  if t = "nan" then .nan
  else .inf (t = "-inf" || t = "-infinity")

/-- Detects the hexadecimal prefix of Go strconv readFloat: after the
sign, a 0x or 0X followed by at least one further character; returns the
part after the prefix. (The i+2 length guard in the Go code means a bare
"0x" is not treated as hexadecimal.) -/
def hexPfxRest (cs : List Char) : Option (List Char) :=
  match cs with
  | c0 :: x :: c :: rest =>
    if c0 = '0' ∧ (x = 'x' ∨ x = 'X') then some (c :: rest) else none
  | _ => none

/-- Model of Go strconv.ParseFloat(s, 64) at the level of acceptance and
exact (unrounded) decoded values: special spellings first, then the
hexadecimal branch when the input (after its sign) starts with a 0x/0X
prefix followed by at least one further character, otherwise the decimal
branch. -/
def goParseFloat (s : String) : Except String FloatV :=
  if isSpecialFloat s then .ok (specialFloatVal s)
  else
    let p := signSplit s.data
    let r :=
      match hexPfxRest p.2 with
      | some tail => hexAccept s p.1 tail
      | none => decAccept s p.1 p.2
    match r with
    | some v => .ok v
    | none => .error "invalid syntax"

/-! ## The fluentflag value codec (func parse, fluentflag.go 253-279) -/

/-- Model of fluentflag's parse: dispatches on the flag type exactly as
the Go switch does. int uses strconv.Atoi, which is ParseInt at the
64-bit platform word size; uint uses ParseUint with bitSize 0, which
also means the 64-bit word size. -/
def parse (tag : Tag) (s : String) : Except String FlagVal :=
  match tag with
  | .bool => (goParseBool s).map FlagVal.bool
  | .str => .ok (.str s)
  | .int => (goParseInt s 64).map FlagVal.int
  | .int64 => (goParseInt s 64).map FlagVal.int64
  | .float64 => (goParseFloat s).map FlagVal.float64
  | .uint => (goParseUint s 64).map FlagVal.uint
  | .uint64 => (goParseUint s 64).map FlagVal.uint64

/-! ## The accumulating value sink (accumValues, fluentflag.go 23-44) -/

/-- Model of accumValues.Set: decode the raw occurrence text with the
value codec; on success append the decoded value to the slice, on
failure return the codec's error and leave the slice untouched. -/
def accumSet (tag : Tag) (xs : List FlagVal) (raw : String) :
    Except String (List FlagVal) :=
  match parse tag raw with
  | .error e => .error e
  | .ok v => .ok (xs ++ [v])

/-- A series of Set calls against one accumulating sink, in call order;
a failing call leaves the slice as it was, and the series continues. -/
def runSets (tag : Tag) (xs : List FlagVal) (raws : List String) : List FlagVal :=
  raws.foldl
    (fun acc raw =>
      match accumSet tag acc raw with
      | .ok ys => ys
      | .error _ => acc)
    xs

/-- Model of accumValues.String: the bracketed space-separated rendering
of the accumulated slice (Go fmt %v of a slice). -/
def renderVals (render : FlagVal → String) (xs : List FlagVal) : String :=
  "[" ++ String.intercalate " " (xs.map render) ++ "]"

/-! ## The flag descriptor (FluentFlag, fluentflag.go 46-65) -/

/-- The sentinel "no alias" character: the Go rune zero value. -/
def zeroChar : Char := Char.ofNat 0

/-- Model of the FluentFlag descriptor record: flag name, optional
single-character alias (zeroChar meaning none), default value (whose
constructor is the type parameter T), and usage text. The builder
back-pointer of the Go struct is represented by always threading the
World through descriptor operations. -/
structure FF where
  name : String
  aliasCh : Char
  defaultVal : FlagVal
  usage : String
deriving DecidableEq, Repr

/-- Placeholder descriptor used for out-of-range heap reads. -/
def ffDummy : FF := ⟨"", zeroChar, .bool false, ""⟩

/-! ## The underlying flag-set and the builder state

Modelled from the spec: the host flag-set collaborator (Go package flag,
not part of this repository) keeps a registry keyed by flag name in which
duplicate registration of a name fails fast with a flag-redefined panic,
and maps each name to a settable value. A registered scalar target has
its storage written with the declared default at registration time, and
Set decodes and overwrites; a registered sink target appends through
accumSet. -/

/-- What a registered flag name is bound to: a scalar storage cell or an
accumulating slice sink, in either case with the element type. -/
inductive Target where
  | scalar (loc : Nat) (tag : Tag)
  | sink (loc : Nat) (tag : Tag)
deriving DecidableEq, Repr

/-- One registration in the underlying flag-set. -/
structure FlagEntry where
  name : String
  usage : String
  target : Target
deriving DecidableEq, Repr

/-- The whole mutable state: the descriptor heap, the scalar-cell heap,
the slice-sink heap, the underlying flag-set registry, and the builder's
own retained list and in-progress slot (both holding descriptor heap
indices, mirroring the Go pointers). -/
structure World where
  descrs : List FF
  scalars : List FlagVal
  sinks : List (List FlagVal)
  fs : List FlagEntry
  flagsBuilt : List Nat
  building : Option Nat
deriving DecidableEq, Repr

/-- A fresh builder on a fresh flag-set. -/
def initWorld : World := ⟨[], [], [], [], [], none⟩

/-- The two unrecoverable programming errors the builder can raise. -/
inductive FatalErr where
  | flagRedefined
  | unbuiltFlag
deriving DecidableEq, Repr

/-- Whether a flag name is already registered on the flag-set. -/
def fsHas (w : World) (nm : String) : Bool :=
  w.fs.any (fun e => e.name == nm)

/-- Looks a registered flag up by name (first registration wins, names
being unique by construction). -/
def findEntry (w : World) (nm : String) : Option FlagEntry :=
  w.fs.find? (fun e => e.name == nm)

/-- Modelled from the spec: the parse-time dispatch of the host
flag-set — one occurrence of a named flag with raw text sets the
registered target: a scalar target is overwritten with the decoded
value, a sink target accumulates through accumSet. -/
def fsSet (w : World) (nm raw : String) : Except String World :=
  match findEntry w nm with
  | none => .error "flag provided but not defined"
  | some e =>
    match e.target with
    | .scalar loc tag =>
      match parse tag raw with
      | .error er => .error er
      | .ok v => .ok { w with scalars := w.scalars.set loc v }
    | .sink loc tag =>
      match accumSet tag (w.sinks.getD loc []) raw with
      | .error er => .error er
      | .ok xs => .ok { w with sinks := w.sinks.set loc xs }

/-! ## Builder operations (fluentflag.go 56-132, 190-250, 282-292) -/

/-- Model of newFlag: raises the unbuilt-flag fatal error while a
previous descriptor is still in progress; otherwise allocates a fresh
descriptor with the given name and usage, no alias and the zero default,
and makes it the in-progress descriptor. The panic happens before any
mutation, so the error carries no state. -/
def newFlag (w : World) (tag : Tag) (nm us : String) :
    Except FatalErr (World × Nat) :=
  if w.building.isSome then .error .unbuiltFlag
  else
    .ok
      ({ w with
          descrs := w.descrs ++ [⟨nm, zeroChar, zeroVal tag, us⟩]
          building := some w.descrs.length },
        w.descrs.length)

/-- The BoolFlag factory. -/
def boolFlag (w : World) (nm us : String) : Except FatalErr (World × Nat) :=
  newFlag w .bool nm us

/-- The StringFlag factory. -/
def stringFlag (w : World) (nm us : String) : Except FatalErr (World × Nat) :=
  newFlag w .str nm us

/-- The IntFlag factory. -/
def intFlag (w : World) (nm us : String) : Except FatalErr (World × Nat) :=
  newFlag w .int nm us

/-- The Int64Flag factory. -/
def int64Flag (w : World) (nm us : String) : Except FatalErr (World × Nat) :=
  newFlag w .int64 nm us

/-- The Float64Flag factory. -/
def float64Flag (w : World) (nm us : String) : Except FatalErr (World × Nat) :=
  newFlag w .float64 nm us

/-- The UintFlag factory. -/
def uintFlag (w : World) (nm us : String) : Except FatalErr (World × Nat) :=
  newFlag w .uint nm us

/-- The Uint64Flag factory. -/
def uint64Flag (w : World) (nm us : String) : Except FatalErr (World × Nat) :=
  newFlag w .uint64 nm us

/-- Model of FluentFlag.Alias: overwrites the alias field of the
descriptor object (by heap index), whatever state it is in. -/
def ffAlias (w : World) (id : Nat) (a : Char) : World :=
  { w with descrs := w.descrs.set id { w.descrs.getD id ffDummy with aliasCh := a } }

/-- Model of FluentFlag.Default: overwrites the default value of the
descriptor object (by heap index), whatever state it is in. -/
def ffDefault (w : World) (id : Nat) (v : FlagVal) : World :=
  { w with descrs := w.descrs.set id { w.descrs.getD id ffDummy with defaultVal := v } }

/-- Model of FluentFlag.Build(ptr): first appends the descriptor to the
builder's retained list and clears the in-progress slot, then writes the
default into the target cell and registers the long name and, when an
alias is set, the one-character short name, both bound to the same cell.
A duplicate registration aborts with the flag-redefined fatal error; the
state mutated up to that point is returned alongside. -/
def build (w : World) (id ptr : Nat) : World × Option FatalErr :=
  let ff := w.descrs.getD id ffDummy
  let tag := tagOf ff.defaultVal
  let w1 := { w with flagsBuilt := w.flagsBuilt ++ [id], building := none }
  let w2 := { w1 with scalars := w1.scalars.set ptr ff.defaultVal }
  if fsHas w2 ff.name then (w2, some .flagRedefined)
  else
    let w3 := { w2 with fs := w2.fs ++ [⟨ff.name, ff.usage, .scalar ptr tag⟩] }
    if ff.aliasCh ≠ zeroChar then
      let w4 := { w3 with scalars := w3.scalars.set ptr ff.defaultVal }
      if fsHas w4 (String.mk [ff.aliasCh]) then (w4, some .flagRedefined)
      else
        ({ w4 with fs := w4.fs ++ [⟨String.mk [ff.aliasCh], "", .scalar ptr tag⟩] },
          none)
    else (w3, none)

/-- Model of FluentFlag.BuildVar: allocates a fresh zero-initialized
cell and delegates to build, returning the cell index. -/
def buildVar (w : World) (id : Nat) : World × Option FatalErr × Nat :=
  let ff := w.descrs.getD id ffDummy
  let ptr := w.scalars.length
  let w1 := { w with scalars := w.scalars ++ [zeroVal (tagOf ff.defaultVal)] }
  let r := build w1 id ptr
  (r.1, r.2, ptr)

/-- Model of FluentFlag.BuildSlice: first appends the descriptor to the
builder's retained list and clears the in-progress slot, then allocates
a fresh empty sink (the configured default is never consulted) and
registers the long name and, when an alias is set, the short name, both
bound to that one sink. A duplicate registration aborts with the
flag-redefined fatal error; the state mutated up to that point is
returned alongside, and the sink index is always reported. -/
def buildSlice (w : World) (id : Nat) : World × Option FatalErr × Nat :=
  let ff := w.descrs.getD id ffDummy
  let tag := tagOf ff.defaultVal
  let w1 := { w with flagsBuilt := w.flagsBuilt ++ [id], building := none }
  let loc := w1.sinks.length
  let w2 := { w1 with sinks := w1.sinks ++ [[]] }
  if fsHas w2 ff.name then (w2, some .flagRedefined, loc)
  else
    let w3 := { w2 with fs := w2.fs ++ [⟨ff.name, ff.usage, .sink loc tag⟩] }
    if ff.aliasCh ≠ zeroChar then
      if fsHas w3 (String.mk [ff.aliasCh]) then (w3, some .flagRedefined, loc)
      else
        ({ w3 with fs := w3.fs ++ [⟨String.mk [ff.aliasCh], "", .sink loc tag⟩] },
          none, loc)
    else (w3, none, loc)

/-! ## Usage rendering (FluentFlag.Usage, fluentflag.go 134-175, and
FlagBuilder.PrintUsage, fluentflag.go 281-292) -/

/-- The Go display name of each supported type, as fmt %T prints it for
the seven base instantiations (the package-qualifier stripping in the Go
code only matters for user-defined named types, which are outside this
model). -/
def typeName : Tag → String
  | .bool => "bool"
  | .str => "string"
  | .int => "int"
  | .int64 => "int64"
  | .float64 => "float64"
  | .uint => "uint"
  | .uint64 => "uint64"

/-- One character of Go fmt %q output. Control and non-ASCII escape
sequences are not modelled; only quote and backslash escaping (no claim
renders a string needing more). -/
def escChar (c : Char) : String :=
  if c = '"' then "\\\"" else if c = '\\' then "\\\\" else String.mk [c]

/-- Model of Go fmt %q applied to a string default. -/
def goQuote (s : String) : String :=
  "\"" ++ String.join (s.data.map escChar) ++ "\""

/-- Rendering of a float64 value for the default suffix (Go fmt %v).
The precise shortest-representation formatting of Go is not modelled;
no claim renders a float default. -/
def renderFloatV : FloatV → String
  | .nan => "NaN"
  | .inf neg => if neg then "-Inf" else "+Inf"
  | .finite q =>
    if q.den = 1 then toString q.num
    else toString q.num ++ "/" ++ toString q.den

/-- The default-value suffix of a usage line: empty for zero-valued
defaults (false, empty string, numeric zero), otherwise a
" (default v)" suffix where string defaults are quoted and booleans
only ever show " (default true)". This is the switch in
FluentFlag.Usage, fluentflag.go 146-161. -/
def defaultSuffix : FlagVal → String
  | .bool b => if b then " (default true)" else ""
  | .str s => if s = "" then "" else " (default " ++ goQuote s ++ ")"
  | .int i => if i = 0 then "" else " (default " ++ toString i ++ ")"
  | .int64 i => if i = 0 then "" else " (default " ++ toString i ++ ")"
  | .float64 f => if f = .finite 0 then "" else " (default " ++ renderFloatV f ++ ")"
  | .uint n => if n = 0 then "" else " (default " ++ toString n ++ ")"
  | .uint64 n => if n = 0 then "" else " (default " ++ toString n ++ ")"

/-- Go fmt left-justified width padding: pad with spaces up to n
characters (fmt counts runes), leaving longer strings unchanged. -/
def padTo (s : String) (n : Nat) : String :=
  s ++ String.mk (List.replicate (n - s.length) ' ')

/-- Model of FluentFlag.Usage: the left column is the alias/name pair
(four leading spaces replacing an absent alias) plus a space and the
type display name for non-boolean flags; when the left column is shorter
than 25 bytes (Go len counts bytes) everything goes on one line with the
column padded to 25, otherwise the column gets its own line and the
usage text starts after 25 blank columns on the next line; both forms
are indented by two spaces and end with the default suffix. -/
def usageStr (ff : FF) : String :=
  let typeSuffix :=
    if tagOf ff.defaultVal = Tag.bool then ""
    else " " ++ typeName (tagOf ff.defaultVal)
  let names :=
    if ff.aliasCh ≠ zeroChar then "-" ++ String.mk [ff.aliasCh] ++ ", --" ++ ff.name
    else "    --" ++ ff.name
  let line := names ++ typeSuffix
  if 25 ≤ line.utf8ByteSize then
    "  " ++ padTo line 25 ++ "\n  " ++ padTo "" 25 ++
      ff.usage ++ defaultSuffix ff.defaultVal
  else
    "  " ++ padTo line 25 ++ ff.usage ++ defaultSuffix ff.defaultVal

/-- The usage renderer as the specification words it, written
independently of usageStr: a left column of the short/long names
(with the four-space placeholder when no alias is set) plus the type
display name for non-boolean types; below the fixed width of 25 display
columns, the column is padded to that width and followed by the usage
text and the non-zero default suffix; at or beyond the fixed width, the
column is emitted on its own line and a second line carries the
fixed-width blank padding, the usage text and the default suffix. -/
def usageSpec (ff : FF) : String :=
  let left :=
    (if ff.aliasCh ≠ zeroChar then "-" ++ String.mk [ff.aliasCh] ++ ", --" ++ ff.name
      else "    --" ++ ff.name) ++
    (if tagOf ff.defaultVal = Tag.bool then ""
      else " " ++ typeName (tagOf ff.defaultVal))
  if left.utf8ByteSize < 25 then
    "  " ++ padTo left 25 ++ ff.usage ++ defaultSuffix ff.defaultVal
  else
    "  " ++ padTo left 25 ++ "\n  " ++ padTo "" 25 ++
      ff.usage ++ defaultSuffix ff.defaultVal

/-- Model of FlagBuilder.PrintUsage: renders the usage line of every
bound descriptor, in binding order, each followed by a newline. -/
def printUsage (w : World) : String :=
  String.join (w.flagsBuilt.map (fun id => usageStr (w.descrs.getD id ffDummy) ++ "\n"))

/-! ## General helper lemmas -/

/-- Reading just past the end of a list extended by one element yields
that element. -/
theorem getD_concat_self {α : Type} (l : List α) (x d : α) :
    (l ++ [x]).getD l.length d = x := by
  simp [List.getD_append_right]

/-- Writing a valid index and reading it back yields the written value. -/
theorem getD_set_self {α : Type} (l : List α) (i : Nat) (v d : α)
    (h : i < l.length) : (l.set i v).getD i d = v := by
  simp [List.getD, List.getElem?_set_self', List.getElem?_eq_getElem h]

/-- A find? over an append skips a prefix in which nothing matches. -/
theorem find?_append_of_none {α : Type} (l1 l2 : List α) (p : α → Bool)
    (h : l1.all (fun x => !p x)) : (l1 ++ l2).find? p = l2.find? p := by
  rw [List.find?_append]
  have hn : l1.find? p = none := by
    rw [List.find?_eq_none]
    intro x hx
    have := List.all_eq_true.mp h x hx
    simpa using this
  simp [hn]

/-! ## Claim theorems -/

/-- C1: For every flag bound as a sequence via BuildSlice, the returned
sequence is initially empty and any default configured on the descriptor
via Default is ignored: with zero set-calls the allocated sink is the
empty sequence, and the sink heap that results from binding does not
depend on the configured default value at all. -/
theorem C1_buildSlice_default_ignored (w : World) (id : Nat) (v : FlagVal) :
    (buildSlice (ffDefault w id v) id).1.sinks = w.sinks ++ [[]] ∧
    (buildSlice (ffDefault w id v) id).2.2 = w.sinks.length ∧
    (buildSlice (ffDefault w id v) id).1.sinks.getD
      (buildSlice (ffDefault w id v) id).2.2 [] = [] := by
  refine ⟨?_, ?_, ?_⟩ <;>
  · simp only [buildSlice, ffDefault, fsHas]
    split_ifs <;> simp [getD_concat_self]

/-- C2: Calling any type factory (BoolFlag, StringFlag, IntFlag,
Int64Flag, Float64Flag, UintFlag, Uint64Flag) while a previously created
descriptor has not reached a binding operation raises the fatal
unbuilt-flag error; calling a factory while the builder is idle succeeds
and returns a fresh descriptor carrying the given name and usage, which
becomes the in-progress descriptor. All seven factories are the shared
newFlag at their element type. -/
theorem C2_factory_states (w : World) (tag : Tag) (nm us : String) :
    (boolFlag w nm us = newFlag w .bool nm us ∧
      stringFlag w nm us = newFlag w .str nm us ∧
      intFlag w nm us = newFlag w .int nm us ∧
      int64Flag w nm us = newFlag w .int64 nm us ∧
      float64Flag w nm us = newFlag w .float64 nm us ∧
      uintFlag w nm us = newFlag w .uint nm us ∧
      uint64Flag w nm us = newFlag w .uint64 nm us) ∧
    (w.building.isSome → newFlag w tag nm us = .error .unbuiltFlag) ∧
    (w.building = none →
      newFlag w tag nm us =
        .ok
          ({ w with
              descrs := w.descrs ++ [⟨nm, zeroChar, zeroVal tag, us⟩]
              building := some w.descrs.length },
            w.descrs.length)) := by
  refine ⟨⟨rfl, rfl, rfl, rfl, rfl, rfl, rfl⟩, ?_, ?_⟩
  · intro h
    simp [newFlag, h]
  · intro h
    simp [newFlag, h]

/-- Witness for C2 at concrete inputs: a factory call on a builder with
an in-progress descriptor fails with unbuiltFlag, and a factory call on
an idle builder does not. -/
theorem C2_factory_states_witness :
    newFlag { initWorld with building := some 0 } Tag.bool "a" "u" =
        .error .unbuiltFlag ∧
    newFlag initWorld Tag.str "n" "u" ≠ .error .unbuiltFlag := by
  constructor
  · exact (C2_factory_states { initWorld with building := some 0 } Tag.bool
      "a" "u").2.1 rfl
  · rw [(C2_factory_states initWorld Tag.str "n" "u").2.2 rfl]
    simp

/-- Binding never touches the descriptor heap. -/
theorem build_descrs_eq (w : World) (id ptr : Nat) :
    (build w id ptr).1.descrs = w.descrs := by
  simp only [build]
  split_ifs <;> rfl

/-- BuildSlice never touches the descriptor heap. -/
theorem buildSlice_descrs_eq (w : World) (id : Nat) :
    (buildSlice w id).1.descrs = w.descrs := by
  simp only [buildSlice]
  split_ifs <;> rfl

/-- After a Build call (even a failing one), the long flag name is
registered on the flag-set. -/
theorem build_fsHas_name (w : World) (id ptr : Nat) :
    fsHas (build w id ptr).1 (w.descrs.getD id ffDummy).name = true := by
  simp only [build, fsHas] at *
  split_ifs <;> simp_all [fsHas]

/-- C3: A binding operation whose long name or short alias is already
registered on the flag-set fails with the fatal flag-redefined error at
binding time; in particular a second Build on the same descriptor fails
with flag-redefined because the first Build registered the long name. -/
theorem C3_flag_redefined (w : World) (id ptr : Nat) :
    (fsHas w (w.descrs.getD id ffDummy).name = true →
      (build w id ptr).2 = some .flagRedefined) ∧
    ((w.descrs.getD id ffDummy).aliasCh ≠ zeroChar →
      fsHas w (String.mk [(w.descrs.getD id ffDummy).aliasCh]) = true →
      (build w id ptr).2 = some .flagRedefined) ∧
    (fsHas w (w.descrs.getD id ffDummy).name = true →
      (buildSlice w id).2.1 = some .flagRedefined) ∧
    ((w.descrs.getD id ffDummy).aliasCh ≠ zeroChar →
      fsHas w (String.mk [(w.descrs.getD id ffDummy).aliasCh]) = true →
      (buildSlice w id).2.1 = some .flagRedefined) ∧
    ((build w id ptr).2 = none →
      (build (build w id ptr).1 id ptr).2 = some .flagRedefined) := by
  have key : ∀ w' : World, fsHas w' (w'.descrs.getD id ffDummy).name = true →
      (build w' id ptr).2 = some .flagRedefined := by
    intro w' h
    simp only [build, fsHas] at *
    split_ifs <;> simp_all
  refine ⟨key w, ?_, ?_, ?_, ?_⟩
  · intro ha h
    simp only [build, fsHas] at *
    split_ifs <;> simp_all
  · intro h
    simp only [buildSlice, fsHas] at *
    split_ifs <;> simp_all
  · intro ha h
    simp only [buildSlice, fsHas] at *
    split_ifs <;> simp_all
  · intro _h
    have hh := build_fsHas_name w id ptr
    have hd := build_descrs_eq w id ptr
    apply key
    rw [hd]
    exact hh

/-- Witness for C3 at concrete inputs: binding a descriptor named n on a
flag-set where n is registered fails with flag-redefined (for Build and
for BuildSlice), and after a successful Build a second Build on the same
descriptor fails with flag-redefined. -/
theorem C3_flag_redefined_witness :
    (build
        ⟨[⟨"n", zeroChar, .bool false, "u"⟩], [.bool false], [], [⟨"n", "", .scalar 0 .bool⟩], [], none⟩
        0 0).2 = some .flagRedefined ∧
    (buildSlice
        ⟨[⟨"n", zeroChar, .bool false, "u"⟩], [], [], [⟨"n", "", .scalar 0 .bool⟩], [], none⟩
        0).2.1 = some .flagRedefined ∧
    (build
        (build ⟨[⟨"n", zeroChar, .bool false, "u"⟩], [.bool false], [], [], [], none⟩ 0 0).1
        0 0).2 = some .flagRedefined := by
  refine ⟨?_, ?_, ?_⟩
  · exact (C3_flag_redefined
      ⟨[⟨"n", zeroChar, .bool false, "u"⟩], [.bool false], [], [⟨"n", "", .scalar 0 .bool⟩], [], none⟩
      0 0).1 (by decide)
  · exact (C3_flag_redefined
      ⟨[⟨"n", zeroChar, .bool false, "u"⟩], [], [], [⟨"n", "", .scalar 0 .bool⟩], [], none⟩
      0 0).2.2.1 (by decide)
  · exact (C3_flag_redefined
      ⟨[⟨"n", zeroChar, .bool false, "u"⟩], [.bool false], [], [], [], none⟩
      0 0).2.2.2.2 (by decide)

/-- A series of Set calls appends exactly the successfully decoded
values, in call order. -/
theorem runSets_eq (tag : Tag) :
    ∀ (raws : List String) (xs : List FlagVal),
      runSets tag xs raws = xs ++ raws.filterMap (fun r => (parse tag r).toOption) := by
  intro raws
  induction raws with
  | nil => intro xs; simp [runSets]
  | cons r rs ih =>
    intro xs
    have step : runSets tag xs (r :: rs) =
        runSets tag
          (match accumSet tag xs r with
            | .ok ys => ys
            | .error _ => xs) rs := rfl
    rw [step, ih]
    cases hp : parse tag r with
    | ok v => simp [accumSet, hp, Except.toOption]
    | error e => simp [accumSet, hp, Except.toOption]

/-- A flag-set with no registration named nm keeps find? lookups of nm
pointing into whatever is appended behind it. -/
theorem findEntry_skip (fs1 fs2 : List FlagEntry) (nm : String)
    (h : fs1.any (fun e => e.name == nm) = false) :
    (fs1 ++ fs2).find? (fun e => e.name == nm) = fs2.find? (fun e => e.name == nm) := by
  apply find?_append_of_none
  simp only [List.all_eq_true]
  intro e he
  simp only [List.any_eq_false] at h
  simpa using h e he

/-- C4: Set decodes the raw occurrence with the value codec for the
element type; on success it appends exactly the decoded value at the
end, on failure it propagates the codec's error and leaves the sequence
unchanged. After any series of Set calls the sequence holds the
successfully decoded values in call order; long-form and short-alias
occurrences share one sink, since a successful BuildSlice with an alias
registers both names against the same sink index. -/
theorem C4_accum_set (tag : Tag) (xs : List FlagVal) (raw : String) :
    (∀ v, parse tag raw = .ok v → accumSet tag xs raw = .ok (xs ++ [v])) ∧
    (∀ e, parse tag raw = .error e →
      accumSet tag xs raw = .error e) ∧
    (∀ raws, runSets tag xs raws =
      xs ++ raws.filterMap (fun r => (parse tag r).toOption)) ∧
    (∀ (w : World) (id : Nat),
      (w.descrs.getD id ffDummy).aliasCh ≠ zeroChar →
      (buildSlice w id).2.1 = none →
      findEntry (buildSlice w id).1 (w.descrs.getD id ffDummy).name =
        some ⟨(w.descrs.getD id ffDummy).name, (w.descrs.getD id ffDummy).usage,
          .sink w.sinks.length (tagOf (w.descrs.getD id ffDummy).defaultVal)⟩ ∧
      findEntry (buildSlice w id).1 (String.mk [(w.descrs.getD id ffDummy).aliasCh]) =
        some ⟨String.mk [(w.descrs.getD id ffDummy).aliasCh], "",
          .sink w.sinks.length (tagOf (w.descrs.getD id ffDummy).defaultVal)⟩) := by
  refine ⟨?_, ?_, fun raws => runSets_eq tag raws xs, ?_⟩
  · intro v hv
    simp [accumSet, hv]
  · intro e he
    simp [accumSet, he]
  · intro w id ha hs
    simp only [buildSlice, fsHas, findEntry] at *
    split_ifs at hs ⊢ with h1 h2
    have h2' := h2
    simp only [List.any_append, List.any_cons, List.any_nil, Bool.or_false,
      Bool.or_eq_true, not_or] at h2'
    obtain ⟨h2a, h2b⟩ := h2'
    have h1' : (w.fs.any fun e =>
        e.name == (w.descrs.getD id ffDummy).name) = false := by
      simpa using h1
    have h2a' : (w.fs.any fun e =>
        e.name == String.mk [(w.descrs.getD id ffDummy).aliasCh]) = false := by
      simpa using h2a
    have h2b' : ((w.descrs.getD id ffDummy).name ==
        String.mk [(w.descrs.getD id ffDummy).aliasCh]) = false := by
      cases hb : ((w.descrs.getD id ffDummy).name ==
          String.mk [(w.descrs.getD id ffDummy).aliasCh])
      · rfl
      · exact absurd hb h2b
    constructor
    · rw [List.append_assoc, findEntry_skip _ _ _ h1']
      simp
    · rw [List.append_assoc, findEntry_skip _ _ _ h2a']
      simp only [List.singleton_append]
      rw [List.find?_cons]
      dsimp only
      rw [h2b']
      simp

/-- Witness for C4 at concrete inputs: appending a decoded value,
propagating a decode error unchanged, accumulating the occurrence series
1,2,3 in argv order, and a successful aliased BuildSlice registering
both names against sink 0. -/
theorem C4_accum_set_witness :
    accumSet Tag.int [FlagVal.int 1] "2" = .ok [FlagVal.int 1, FlagVal.int 2] ∧
    accumSet Tag.int [FlagVal.int 1] "x" = .error "invalid syntax" ∧
    runSets Tag.int [] ["1", "2", "3"] =
      [FlagVal.int 1, FlagVal.int 2, FlagVal.int 3] ∧
    (findEntry
        (buildSlice ⟨[⟨"item", 'i', .str "", "u"⟩], [], [], [], [], none⟩ 0).1
        "item" = some ⟨"item", "u", .sink 0 .str⟩ ∧
      findEntry
        (buildSlice ⟨[⟨"item", 'i', .str "", "u"⟩], [], [], [], [], none⟩ 0).1
        (String.mk ['i']) = some ⟨String.mk ['i'], "", .sink 0 .str⟩) := by
  refine ⟨?_, ?_, ?_, ?_⟩
  · exact (C4_accum_set Tag.int [FlagVal.int 1] "2").1 (FlagVal.int 2) rfl
  · exact (C4_accum_set Tag.int [FlagVal.int 1] "x").2.1 "invalid syntax" rfl
  · rw [(C4_accum_set Tag.int [] "0").2.2.1 ["1", "2", "3"]]
    rfl
  · exact (C4_accum_set Tag.int [] "x").2.2.2
      ⟨[⟨"item", 'i', .str "", "u"⟩], [], [], [], [], none⟩ 0 (by decide) rfl

/-- Looking up either of two distinct names appended to a registry that
contains neither finds the corresponding appended entry. -/
theorem find?_two (fs1 : List FlagEntry) (e1 e2 : FlagEntry) (nm1 nm2 : String)
    (he1 : e1.name = nm1) (he2 : e2.name = nm2)
    (h1 : fs1.any (fun e => e.name == nm1) = false)
    (h2 : fs1.any (fun e => e.name == nm2) = false)
    (hne : (nm1 == nm2) = false) :
    (fs1 ++ [e1, e2]).find? (fun e => e.name == nm1) = some e1 ∧
    (fs1 ++ [e1, e2]).find? (fun e => e.name == nm2) = some e2 := by
  subst he1
  subst he2
  constructor
  · rw [findEntry_skip _ _ _ h1, List.find?_cons]
    simp
  · rw [findEntry_skip _ _ _ h2, List.find?_cons]
    simp only [hne]
    simp

/-- C7: Alias with the zero character records no short form, so binding
with no alias and a fresh name registers exactly the long name (and
nothing else); with a non-zero alias a successful Build registers both
the long form and the one-character short form against the same storage
cell, and a successful BuildSlice registers both against the same sink,
so a parse-time set through either name updates the same state. -/
theorem C7_alias_shared_target (w : World) (id ptr : Nat) :
    ((w.descrs.getD id ffDummy).aliasCh = zeroChar →
      fsHas w (w.descrs.getD id ffDummy).name = false →
      build w id ptr =
        ({ w with
            flagsBuilt := w.flagsBuilt ++ [id]
            building := none
            scalars := w.scalars.set ptr (w.descrs.getD id ffDummy).defaultVal
            fs := w.fs ++
              [⟨(w.descrs.getD id ffDummy).name, (w.descrs.getD id ffDummy).usage,
                .scalar ptr (tagOf (w.descrs.getD id ffDummy).defaultVal)⟩] },
          none)) ∧
    ((w.descrs.getD id ffDummy).aliasCh ≠ zeroChar →
      (build w id ptr).2 = none →
      (build w id ptr).1.fs = w.fs ++
        [⟨(w.descrs.getD id ffDummy).name, (w.descrs.getD id ffDummy).usage,
            .scalar ptr (tagOf (w.descrs.getD id ffDummy).defaultVal)⟩,
          ⟨String.mk [(w.descrs.getD id ffDummy).aliasCh], "",
            .scalar ptr (tagOf (w.descrs.getD id ffDummy).defaultVal)⟩] ∧
      ∀ raw,
        fsSet (build w id ptr).1 (String.mk [(w.descrs.getD id ffDummy).aliasCh]) raw =
          fsSet (build w id ptr).1 (w.descrs.getD id ffDummy).name raw) ∧
    ((w.descrs.getD id ffDummy).aliasCh ≠ zeroChar →
      (buildSlice w id).2.1 = none →
      ∀ raw,
        fsSet (buildSlice w id).1 (String.mk [(w.descrs.getD id ffDummy).aliasCh]) raw =
          fsSet (buildSlice w id).1 (w.descrs.getD id ffDummy).name raw) := by
  refine ⟨?_, ?_, ?_⟩
  · intro hz hn
    simp only [fsHas, List.any_eq_false, beq_iff_eq,
      List.getD_eq_getElem?_getD] at hn
    simp only [build, fsHas]
    have hC1 : ¬∃ x ∈ w.fs, x.name = ((w.descrs[id]?).getD ffDummy).name := by
      rintro ⟨x, hx, he⟩
      exact hn x hx he
    have hz' := hz
    simp only [List.getD_eq_getElem?_getD] at hz'
    simp [hC1, hz']
  · intro ha hs
    simp only [build, fsHas] at *
    split_ifs at hs ⊢ with h1 h2
    have h2' := h2
    simp only [List.any_append, List.any_cons, List.any_nil, Bool.or_false,
      Bool.or_eq_true, not_or] at h2'
    obtain ⟨h2a, h2b⟩ := h2'
    have h1' : (w.fs.any fun e =>
        e.name == (w.descrs.getD id ffDummy).name) = false := by
      simpa using h1
    have h2a' : (w.fs.any fun e =>
        e.name == String.mk [(w.descrs.getD id ffDummy).aliasCh]) = false := by
      simpa using h2a
    have h2b' : ((w.descrs.getD id ffDummy).name ==
        String.mk [(w.descrs.getD id ffDummy).aliasCh]) = false := by
      cases hb : ((w.descrs.getD id ffDummy).name ==
          String.mk [(w.descrs.getD id ffDummy).aliasCh])
      · rfl
      · exact absurd hb h2b
    have hfind := find?_two w.fs
      ⟨(w.descrs.getD id ffDummy).name, (w.descrs.getD id ffDummy).usage,
        .scalar ptr (tagOf (w.descrs.getD id ffDummy).defaultVal)⟩
      ⟨String.mk [(w.descrs.getD id ffDummy).aliasCh], "",
        .scalar ptr (tagOf (w.descrs.getD id ffDummy).defaultVal)⟩
      (w.descrs.getD id ffDummy).name (String.mk [(w.descrs.getD id ffDummy).aliasCh])
      rfl rfl h1' h2a' h2b'
    constructor
    · simp [List.append_assoc]
    · intro raw
      simp only [fsSet, findEntry]
      simp only [List.append_assoc, List.singleton_append]
      rw [hfind.1, hfind.2]
  · intro ha hs
    simp only [buildSlice, fsHas] at *
    split_ifs at hs ⊢ with h1 h2
    have h2' := h2
    simp only [List.any_append, List.any_cons, List.any_nil, Bool.or_false,
      Bool.or_eq_true, not_or] at h2'
    obtain ⟨h2a, h2b⟩ := h2'
    have h1' : (w.fs.any fun e =>
        e.name == (w.descrs.getD id ffDummy).name) = false := by
      simpa using h1
    have h2a' : (w.fs.any fun e =>
        e.name == String.mk [(w.descrs.getD id ffDummy).aliasCh]) = false := by
      simpa using h2a
    have h2b' : ((w.descrs.getD id ffDummy).name ==
        String.mk [(w.descrs.getD id ffDummy).aliasCh]) = false := by
      cases hb : ((w.descrs.getD id ffDummy).name ==
          String.mk [(w.descrs.getD id ffDummy).aliasCh])
      · rfl
      · exact absurd hb h2b
    have hfind := find?_two w.fs
      ⟨(w.descrs.getD id ffDummy).name, (w.descrs.getD id ffDummy).usage,
        .sink w.sinks.length (tagOf (w.descrs.getD id ffDummy).defaultVal)⟩
      ⟨String.mk [(w.descrs.getD id ffDummy).aliasCh], "",
        .sink w.sinks.length (tagOf (w.descrs.getD id ffDummy).defaultVal)⟩
      (w.descrs.getD id ffDummy).name (String.mk [(w.descrs.getD id ffDummy).aliasCh])
      rfl rfl h1' h2a' h2b'
    intro raw
    simp only [fsSet, findEntry]
    simp only [List.append_assoc, List.singleton_append]
    rw [hfind.1, hfind.2]

/-- Witness for C7 at concrete inputs: binding an alias-free descriptor
registers exactly the long name; a successful aliased Build and
BuildSlice make set calls through the short and the long form agree. -/
theorem C7_alias_shared_target_witness :
    build ⟨[⟨"num", zeroChar, .int 0, "u"⟩], [.int 0], [], [], [], none⟩ 0 0 =
      (⟨[⟨"num", zeroChar, .int 0, "u"⟩], [.int 0], [],
        [⟨"num", "u", .scalar 0 .int⟩], [0], none⟩, none) ∧
    fsSet (build ⟨[⟨"num", 'n', .int 0, "u"⟩], [.int 0], [], [], [], none⟩ 0 0).1
        (String.mk ['n']) "7" =
      fsSet (build ⟨[⟨"num", 'n', .int 0, "u"⟩], [.int 0], [], [], [], none⟩ 0 0).1
        "num" "7" ∧
    fsSet (buildSlice ⟨[⟨"num", 'n', .int 0, "u"⟩], [], [], [], [], none⟩ 0).1
        (String.mk ['n']) "7" =
      fsSet (buildSlice ⟨[⟨"num", 'n', .int 0, "u"⟩], [], [], [], [], none⟩ 0).1
        "num" "7" := by
  refine ⟨?_, ?_, ?_⟩
  · exact (C7_alias_shared_target
      ⟨[⟨"num", zeroChar, .int 0, "u"⟩], [.int 0], [], [], [], none⟩ 0 0).1 rfl rfl
  · exact (C7_alias_shared_target
      ⟨[⟨"num", 'n', .int 0, "u"⟩], [.int 0], [], [], [], none⟩ 0 0).2.1
      (by decide) rfl |>.2 "7"
  · exact (C7_alias_shared_target
      ⟨[⟨"num", 'n', .int 0, "u"⟩], [], [], [], [], none⟩ 0 0).2.2
      (by decide) rfl "7"

/-- C6: Usage renders one formatted block per descriptor: the left
column is the alias/name pair (-A, --name, or four spaces plus --name
when no alias is set) followed by the type display name for non-boolean
types; below 25 columns the column is padded to 25 and followed by the
usage text and the non-zero default suffix (string defaults quoted,
booleans only when true), at or beyond 25 columns the column gets its
own line and the padding, usage text and suffix follow on a second
line — as stated by the independently written usageSpec. In particular
the claim's example descriptor renders to exactly the expected line, and
an over-long name wraps onto two lines. -/
theorem C6_usage_rendering :
    (∀ ff : FF, usageStr ff = usageSpec ff) ∧
    usageStr ⟨"name", 'n', .str "foo", "Command name for error messages"⟩ =
      "  -n, --name string        Command name for error messages (default \"foo\")" ∧
    usageStr ⟨"this-is-a-very-long-flag-name-for-testing", 'L', .str "long",
        "A very long flag name to test wrapping"⟩ =
      "  -L, --this-is-a-very-long-flag-name-for-testing string\n                           A very long flag name to test wrapping (default \"long\")" := by
  refine ⟨?_, by decide, by decide⟩
  intro ff
  simp only [usageStr, usageSpec]
  split_ifs <;> first | rfl | omega

/-- Joining a list of strings extended by one string appends it. -/
theorem join_concat (l : List String) (s : String) :
    String.join (l ++ [s]) = String.join l ++ s := by
  simp [String.join, List.foldl_append]

/-- Build always appends the descriptor to the retained list. -/
theorem build_flagsBuilt (w : World) (id ptr : Nat) :
    (build w id ptr).1.flagsBuilt = w.flagsBuilt ++ [id] := by
  simp only [build]
  split_ifs <;> rfl

/-- Build always clears the in-progress slot. -/
theorem build_building (w : World) (id ptr : Nat) :
    (build w id ptr).1.building = none := by
  simp only [build]
  split_ifs <;> rfl

/-- BuildSlice always appends the descriptor to the retained list. -/
theorem buildSlice_flagsBuilt (w : World) (id : Nat) :
    (buildSlice w id).1.flagsBuilt = w.flagsBuilt ++ [id] := by
  simp only [buildSlice]
  split_ifs <;> rfl

/-- BuildSlice always clears the in-progress slot. -/
theorem buildSlice_building (w : World) (id : Nat) :
    (buildSlice w id).1.building = none := by
  simp only [buildSlice]
  split_ifs <;> rfl

/-- After Build, the rendered usage text of the builder is extended with
exactly the bound descriptor's usage block. -/
theorem printUsage_build (w : World) (id ptr : Nat) :
    printUsage (build w id ptr).1 =
      printUsage w ++ usageStr (w.descrs.getD id ffDummy) ++ "\n" := by
  simp only [printUsage, build_flagsBuilt, build_descrs_eq, List.map_append,
    List.map_cons, List.map_nil, join_concat, String.append_assoc]

/-- After BuildSlice, the rendered usage text of the builder is extended
with exactly the bound descriptor's usage block. -/
theorem printUsage_buildSlice (w : World) (id : Nat) :
    printUsage (buildSlice w id).1 =
      printUsage w ++ usageStr (w.descrs.getD id ffDummy) ++ "\n" := by
  simp only [printUsage, buildSlice_flagsBuilt, buildSlice_descrs_eq,
    List.map_append, List.map_cons, List.map_nil, join_concat, String.append_assoc]

/-- C8: The in-progress slot is non-empty exactly between a factory call
and the matching binding call: a successful factory call fills the slot
with the new descriptor, every binding operation (Build, BuildVar,
BuildSlice) clears the slot and appends the bound descriptor to the
retained list, and PrintUsage renders that list in binding order, so a
binding appends exactly one usage block at the end. -/
theorem C8_slot_lifecycle (w : World) (id ptr : Nat) :
    ((build w id ptr).1.building = none ∧
      (build w id ptr).1.flagsBuilt = w.flagsBuilt ++ [id]) ∧
    ((buildVar w id).1.building = none ∧
      (buildVar w id).1.flagsBuilt = w.flagsBuilt ++ [id]) ∧
    ((buildSlice w id).1.building = none ∧
      (buildSlice w id).1.flagsBuilt = w.flagsBuilt ++ [id]) ∧
    (∀ (tag : Tag) (nm us : String) (w' : World) (i : Nat),
      newFlag w tag nm us = .ok (w', i) → w'.building = some i) ∧
    printUsage (build w id ptr).1 =
      printUsage w ++ usageStr (w.descrs.getD id ffDummy) ++ "\n" ∧
    printUsage (buildSlice w id).1 =
      printUsage w ++ usageStr (w.descrs.getD id ffDummy) ++ "\n" := by
  refine ⟨⟨build_building w id ptr, build_flagsBuilt w id ptr⟩,
    ⟨?_, ?_⟩,
    ⟨buildSlice_building w id, buildSlice_flagsBuilt w id⟩,
    ?_, printUsage_build w id ptr, printUsage_buildSlice w id⟩
  · simp only [buildVar]
    exact build_building _ id _
  · simp only [buildVar]
    exact build_flagsBuilt _ id _
  · intro tag nm us w' i h
    simp only [newFlag] at h
    split_ifs at h with hb
    cases h
    rfl

/-- Witness for C8 at a concrete input: a successful factory call fills
the in-progress slot with the created descriptor's index. -/
theorem C8_slot_lifecycle_witness :
    ({ initWorld with
        descrs := [⟨"x", zeroChar, zeroVal Tag.bool, "u"⟩]
        building := some 0 } : World).building = some 0 := by
  exact (C8_slot_lifecycle initWorld 0 0).2.2.2.1 Tag.bool "x" "u" _ 0 rfl

/-- C10: When Build or BuildSlice aborts with the fatal flag-redefined
error, the builder state has already been mutated: the failing
descriptor is on the retained list (so PrintUsage renders it at the
end), and the in-progress slot is cleared — binding is not atomic with
respect to the builder's own state on this error. -/
theorem C10_not_atomic (w : World) (id ptr : Nat) :
    ((build w id ptr).2 = some .flagRedefined →
      (build w id ptr).1.flagsBuilt = w.flagsBuilt ++ [id] ∧
      (build w id ptr).1.building = none ∧
      printUsage (build w id ptr).1 =
        printUsage w ++ usageStr (w.descrs.getD id ffDummy) ++ "\n") ∧
    ((buildSlice w id).2.1 = some .flagRedefined →
      (buildSlice w id).1.flagsBuilt = w.flagsBuilt ++ [id] ∧
      (buildSlice w id).1.building = none ∧
      printUsage (buildSlice w id).1 =
        printUsage w ++ usageStr (w.descrs.getD id ffDummy) ++ "\n") := by
  constructor
  · intro _h
    exact ⟨build_flagsBuilt w id ptr, build_building w id ptr,
      printUsage_build w id ptr⟩
  · intro _h
    exact ⟨buildSlice_flagsBuilt w id, buildSlice_building w id,
      printUsage_buildSlice w id⟩

/-- Witness for C10 at a concrete input: a Build that fails with
flag-redefined has nonetheless retained the descriptor and cleared the
in-progress slot, and PrintUsage renders the failed flag. -/
theorem C10_not_atomic_witness :
    (build ⟨[⟨"n", zeroChar, .bool false, "u"⟩], [.bool false], [],
        [⟨"n", "", .scalar 0 .bool⟩], [], some 0⟩ 0 0).1.flagsBuilt = [0] ∧
    (build ⟨[⟨"n", zeroChar, .bool false, "u"⟩], [.bool false], [],
        [⟨"n", "", .scalar 0 .bool⟩], [], some 0⟩ 0 0).1.building = none ∧
    printUsage (build ⟨[⟨"n", zeroChar, .bool false, "u"⟩], [.bool false], [],
        [⟨"n", "", .scalar 0 .bool⟩], [], some 0⟩ 0 0).1 =
      printUsage ⟨[⟨"n", zeroChar, .bool false, "u"⟩], [.bool false], [],
        [⟨"n", "", .scalar 0 .bool⟩], [], some 0⟩ ++
        usageStr ⟨"n", zeroChar, .bool false, "u"⟩ ++ "\n" := by
  exact (C10_not_atomic ⟨[⟨"n", zeroChar, .bool false, "u"⟩], [.bool false], [],
    [⟨"n", "", .scalar 0 .bool⟩], [], some 0⟩ 0 0).1 (by decide)

/-- Counterexample to C9 as stated: a descriptor that has reached a
binding operation (BuildVar) is not immutable — a subsequent Alias call
changes its alias field, and because the builder retains the same
descriptor object, the PrintUsage rendering changes too. -/
theorem C9_immutable_counterexample :
    ((ffAlias
        (buildVar ⟨[⟨"name", zeroChar, .str "", "usage text"⟩], [], [], [], [], some 0⟩
          0).1 0 'z').descrs.getD 0 ffDummy).aliasCh ≠
      (((buildVar ⟨[⟨"name", zeroChar, .str "", "usage text"⟩], [], [], [], [], some 0⟩
          0).1.descrs.getD 0 ffDummy)).aliasCh ∧
    printUsage
        (ffAlias
          (buildVar ⟨[⟨"name", zeroChar, .str "", "usage text"⟩], [], [], [], [], some 0⟩
            0).1 0 'z') ≠
      printUsage
        (buildVar ⟨[⟨"name", zeroChar, .str "", "usage text"⟩], [], [], [], [], some 0⟩
          0).1 := by
  decide

/-- C9 amended: a binding operation itself never mutates the descriptor
(the descriptor heap is unchanged by Build, BuildVar and BuildSlice, so
the descriptor's fields and its usage rendering are those configured at
binding time as long as the caller makes no further calls), but the
descriptor is not immutable after binding: a subsequent Alias or Default
call still overwrites the alias or default field of the retained
descriptor in place. -/
theorem C9_binding_descriptor_heap (w : World) (id ptr : Nat) (a : Char)
    (v : FlagVal) (h : id < w.descrs.length) :
    (build w id ptr).1.descrs = w.descrs ∧
    (buildSlice w id).1.descrs = w.descrs ∧
    (buildVar w id).1.descrs = w.descrs ∧
    (ffAlias w id a).descrs.getD id ffDummy =
      { w.descrs.getD id ffDummy with aliasCh := a } ∧
    (ffDefault w id v).descrs.getD id ffDummy =
      { w.descrs.getD id ffDummy with defaultVal := v } ∧
    (ffAlias w id a).flagsBuilt = w.flagsBuilt ∧
    (ffDefault w id v).flagsBuilt = w.flagsBuilt := by
  refine ⟨build_descrs_eq w id ptr, buildSlice_descrs_eq w id, ?_, ?_, ?_, rfl, rfl⟩
  · simp only [buildVar]
    exact build_descrs_eq _ id _
  · simp only [ffAlias]
    exact getD_set_self _ _ _ _ h
  · simp only [ffDefault]
    exact getD_set_self _ _ _ _ h

/-- Witness for the amended C9 at a concrete input: Alias after binding
really does overwrite the retained descriptor's alias field. -/
theorem C9_binding_descriptor_heap_witness :
    (ffAlias ⟨[⟨"n", zeroChar, .bool false, "u"⟩], [], [], [], [0], none⟩
        0 'z').descrs.getD 0 ffDummy =
      { name := "n", aliasCh := 'z', defaultVal := .bool false, usage := "u" } := by
  exact (C9_binding_descriptor_heap
    ⟨[⟨"n", zeroChar, .bool false, "u"⟩], [], [], [], [0], none⟩
    0 0 'z' (.bool false) (by decide)).2.2.2.1

/-! ## Spec-side literal grammars for the value codec (claim C5)

These definitions restate the specification's wording of the per-type
literal grammars (the natural base-10 grammar for the integer widths,
and standard decimal/exponential notation for floating point),
independently of the scanner structure of the strconv models above. -/

/-- Spec-side: an unsigned base-10 integer literal is a nonempty run of
decimal digits. -/
def isUintLit (s : String) : Bool :=
  !s.data.isEmpty && s.data.all (fun c => c.isDigit)

/-- Spec-side value of an unsigned base-10 literal. -/
def uintLitVal (s : String) : Nat := digitsToNat s.data

/-- Spec-side: a signed base-10 integer literal is an optional sign
followed by a nonempty run of decimal digits. -/
def isIntLit (s : String) : Bool :=
  !(signSplit s.data).2.isEmpty && (signSplit s.data).2.all (fun c => c.isDigit)

/-- Spec-side value of a signed base-10 literal. -/
def intLitVal (s : String) : Int :=
  if (signSplit s.data).1 then -(digitsToNat (signSplit s.data).2 : Int)
  else (digitsToNat (signSplit s.data).2 : Int)

/-- Spec-side: a decimal exponent part (after the e/E marker) is an
optional sign followed by a nonempty run of decimal digits. -/
def expLit (cs : List Char) : Bool :=
  !(signSplit cs).2.isEmpty && (signSplit cs).2.all (fun c => c.isDigit)

/-- Spec-side scanner for the unsigned part of standard decimal or
exponential floating-point notation: digits with at most one decimal
point and at least one digit overall, optionally followed by an e/E
exponent part. -/
def decLit : List Char → Bool → Bool → Bool
  | [], _, sawdig => sawdig
  | c :: cs, sawdot, sawdig =>
    if c.isDigit then decLit cs sawdot true
    else if c = '.' then !sawdot && decLit cs true sawdig
    else if c = 'e' ∨ c = 'E' then sawdig && expLit cs
    else false

/-- Spec-side: standard decimal/exponential floating-point notation with
an optional leading sign (no underscores, hexadecimal forms or special
spellings). -/
def decimalFloatLit (s : String) : Bool :=
  decLit (signSplit s.data).2 false false

/-- A string containing no decimal digit at all (clearly non-numeric
input, in the words of the specification). -/
def hasNoDigit (s : String) : Bool :=
  s.data.all (fun c => !c.isDigit)

/-- Success of a mapped Except is success of the base computation. -/
theorem map_ok_iff {α β : Type} (m : Except String α) (f : α → β) :
    (∃ v, m.map f = .ok v) ↔ ∃ n, m = .ok n := by
  cases m <;> simp [Except.map]

/-- Mapping preserves ok values. -/
theorem map_ok_val {α β : Type} (m : Except String α) (f : α → β) (n : α)
    (h : m = .ok n) : m.map f = .ok (f n) := by
  rw [h]
  rfl

/-- Failure of a mapped Except is failure of the base computation, with
the same error. -/
theorem map_error_iff {α β : Type} (m : Except String α) (f : α → β) (e : String) :
    m.map f = .error e ↔ m = .error e := by
  cases m <;> simp [Except.map]

/-- digitsNat? succeeds exactly on nonempty all-digit lists, decoding
their base-10 value. -/
theorem digitsNat?_eq_some (cs : List Char) (n : Nat) :
    digitsNat? cs = some n ↔
      (cs.isEmpty = false ∧ cs.all (fun c => c.isDigit) = true ∧
        n = digitsToNat cs) := by
  unfold digitsNat?
  split_ifs with h1 h2
  · simp [h1]
  · constructor
    · intro h
      injection h with h
      exact ⟨by simpa using h1, h2, h.symm⟩
    · rintro ⟨-, -, rfl⟩
      rfl
  · constructor
    · intro h
      cases h
    · rintro ⟨hne, hall, -⟩
      exact absurd hall h2

/-- Characterization of the ParseUint model at 64 bits: success exactly
on nonempty digit runs whose value fits, and the decoded value is the
literal's value. -/
theorem goParseUint64_char (s : String) :
    ((∃ n, goParseUint s 64 = .ok n) ↔
      (isUintLit s = true ∧ uintLitVal s < 2 ^ 64)) ∧
    (isUintLit s = true → uintLitVal s < 2 ^ 64 →
      goParseUint s 64 = .ok (uintLitVal s)) := by
  have hval : isUintLit s = true → uintLitVal s < 2 ^ 64 →
      goParseUint s 64 = .ok (uintLitVal s) := by
    intro hl hrange
    simp only [isUintLit, Bool.and_eq_true, Bool.not_eq_true'] at hl
    have hd : digitsNat? s.data = some (digitsToNat s.data) :=
      (digitsNat?_eq_some _ _).mpr ⟨hl.1, hl.2, rfl⟩
    simp only [goParseUint, hd, uintLitVal] at hrange ⊢
    rw [if_pos hrange]
  refine ⟨⟨?_, fun h => ⟨_, hval h.1 h.2⟩⟩, hval⟩
  rintro ⟨n, hn⟩
  simp only [goParseUint] at hn
  cases hd : digitsNat? s.data with
  | none => rw [hd] at hn; cases hn
  | some m =>
    rw [hd] at hn
    dsimp only at hn
    split_ifs at hn with hr
    obtain ⟨h1, h2, h3⟩ := (digitsNat?_eq_some _ _).mp hd
    refine ⟨by simp [isUintLit, h1, h2], ?_⟩
    simpa [uintLitVal, ← h3] using hr

/-- Characterization of the ParseInt model at 64 bits: success exactly
on optionally signed nonempty digit runs whose value fits the signed
64-bit range, and the decoded value is the literal's value. -/
theorem goParseInt64_char (s : String) :
    ((∃ n, goParseInt s 64 = .ok n) ↔
      (isIntLit s = true ∧ -(2 ^ 63) ≤ intLitVal s ∧ intLitVal s < 2 ^ 63)) ∧
    (isIntLit s = true → -(2 ^ 63) ≤ intLitVal s → intLitVal s < 2 ^ 63 →
      goParseInt s 64 = .ok (intLitVal s)) := by
  rcases hp : signSplit s.data with ⟨neg, ds⟩
  have hval : isIntLit s = true → -(2 ^ 63) ≤ intLitVal s → intLitVal s < 2 ^ 63 →
      goParseInt s 64 = .ok (intLitVal s) := by
    intro hl hlo hhi
    simp only [isIntLit, hp, Bool.and_eq_true, Bool.not_eq_true'] at hl
    have hd : digitsNat? ds = some (digitsToNat ds) :=
      (digitsNat?_eq_some _ _).mpr ⟨hl.1, hl.2, rfl⟩
    simp only [goParseInt, intLitVal, hp, hd] at hlo hhi ⊢
    cases neg
    · simp only [if_false, Bool.false_eq_true] at hlo hhi ⊢
      rw [if_pos (by omega : digitsToNat ds < 2 ^ (64 - 1))]
    · simp only [if_true] at hlo hhi ⊢
      rw [if_pos (by omega : digitsToNat ds ≤ 2 ^ (64 - 1))]
  refine ⟨⟨?_, fun h => ⟨_, hval h.1 h.2.1 h.2.2⟩⟩, hval⟩
  rintro ⟨n, hn⟩
  simp only [goParseInt, hp] at hn
  cases hd : digitsNat? ds with
  | none => rw [hd] at hn; cases hn
  | some m =>
    rw [hd] at hn
    obtain ⟨h1, h2, h3⟩ := (digitsNat?_eq_some _ _).mp hd
    refine ⟨by simp [isIntLit, hp, h1, h2], ?_⟩
    simp only [intLitVal, hp]
    cases neg
    · simp only [Bool.false_eq_true, if_false] at hn ⊢
      split_ifs at hn with hr
      constructor
      · omega
      · exact_mod_cast by omega
    · simp only [if_true] at hn ⊢
      split_ifs at hn with hr
      constructor
      · omega
      · omega

/-- Characterization of the ParseBool model: true exactly on the six
truthy spellings, false exactly on the six falsy spellings, an error
exactly otherwise. -/
theorem goParseBool_char (s : String) :
    (goParseBool s = .ok true ↔
      (s = "1" ∨ s = "t" ∨ s = "T" ∨ s = "true" ∨ s = "TRUE" ∨ s = "True")) ∧
    (goParseBool s = .ok false ↔
      (s = "0" ∨ s = "f" ∨ s = "F" ∨ s = "false" ∨ s = "FALSE" ∨ s = "False")) ∧
    ((∃ e, goParseBool s = .error e) ↔
      ¬((s = "1" ∨ s = "t" ∨ s = "T" ∨ s = "true" ∨ s = "TRUE" ∨ s = "True") ∨
        (s = "0" ∨ s = "f" ∨ s = "F" ∨ s = "false" ∨ s = "FALSE" ∨ s = "False"))) := by
  simp only [goParseBool]
  split_ifs with h1 h2
  · simp only [Bool.or_eq_true, decide_eq_true_eq] at h1
    rcases h1 with ((((rfl | rfl) | rfl) | rfl) | rfl) | rfl <;> simp
  · simp only [Bool.or_eq_true, decide_eq_true_eq] at h1 h2
    rcases h2 with ((((rfl | rfl) | rfl) | rfl) | rfl) | rfl <;> simp
  · simp only [Bool.or_eq_true, decide_eq_true_eq] at h1 h2
    simp only [reduceCtorEq, false_iff, Except.error.injEq, exists_eq',
      true_iff]
    tauto

/-- Exponent digit runs are consumed completely by the exponent scanner
without touching the underscore flag. -/
theorem scanExpDigits_all (ds : List Char) :
    ∀ (e : Nat) (u : Bool), ds.all (fun c => c.isDigit) = true →
      ∃ e', scanExpDigits ds e u = ((e', u), []) := by
  induction ds with
  | nil => exact fun e u _ => ⟨e, rfl⟩
  | cons c t ih =>
    intro e u h
    rw [List.all_cons, Bool.and_eq_true] at h
    obtain ⟨hc, ht⟩ := h
    have hne : ¬(c = '_') := by
      rintro rfl
      simp at hc
    unfold scanExpDigits
    rw [if_neg hne, if_pos hc]
    exact ih _ u ht

/-- A spec-side exponent literal is accepted by the exponent part of the
readFloat model, with no underscores seen. -/
theorem expAccept_of_expLit (cs : List Char) (h : expLit cs = true) :
    ∃ eneg e, expAccept cs = some (eneg, e, false) := by
  unfold expLit at h
  rcases hp : signSplit cs with ⟨es, ds⟩
  rw [hp] at h
  rw [Bool.and_eq_true] at h
  obtain ⟨hne, hall⟩ := h
  unfold expAccept
  rw [hp]
  cases ds with
  | nil => simp at hne
  | cons c t =>
    have hc : c.isDigit = true := by
      rw [List.all_cons, Bool.and_eq_true] at hall
      exact hall.1
    obtain ⟨e', he'⟩ := scanExpDigits_all (c :: t) 0 false hall
    simp only [if_pos hc, he']
    exact ⟨es, e', rfl⟩

/-- The mantissa scanner accepts every spec-side decimal literal body:
it ends with a digit seen and no underscore, and stops either at the end
of the input or exactly at an e/E exponent marker followed by a
spec-side exponent literal. -/
theorem scanMant_of_decLit :
    ∀ (cs : List Char) (st : MantScan), st.und = false →
      decLit cs st.sawdot st.sawdig = true →
      (scanMant false cs st).1.sawdig = true ∧
      (scanMant false cs st).1.und = false ∧
      ((scanMant false cs st).2 = [] ∨
        ∃ c t, (c = 'e' ∨ c = 'E') ∧ (scanMant false cs st).2 = c :: t ∧
          expLit t = true) := by
  intro cs
  induction cs with
  | nil =>
    intro st hu hd
    simp only [decLit] at hd
    refine ⟨?_, ?_, .inl ?_⟩ <;> simp [scanMant, hd, hu]
  | cons c cs ih =>
    intro st hu hd
    by_cases hdig : c.isDigit = true
    · have hne1 : ¬(c = '_') := by rintro rfl; simp at hdig
      have hne2 : ¬(c = '.') := by rintro rfl; simp at hdig
      simp only [decLit, if_pos hdig] at hd
      simp only [scanMant, if_neg hne1, if_neg hne2, if_pos hdig]
      exact ih _ hu hd
    · by_cases hdot : c = '.'
      · subst hdot
        simp only [decLit, if_neg hdig, if_true] at hd
        rw [Bool.and_eq_true] at hd
        obtain ⟨hnd, hd'⟩ := hd
        have hsd : st.sawdot = false := by simpa using hnd
        have hne1 : ¬(('.' : Char) = '_') := by decide
        simp only [scanMant, if_neg hne1, if_pos rfl, hsd, Bool.false_eq_true,
          if_false]
        exact ih _ hu hd'
      · by_cases he : c = 'e' ∨ c = 'E'
        · simp only [decLit, if_neg hdig, if_neg hdot, if_pos he] at hd
          rw [Bool.and_eq_true] at hd
          obtain ⟨hsg, hexp⟩ := hd
          have hne1 : ¬(c = '_') := by
            rintro rfl
            rcases he with h | h <;> cases h
          have hhex : ¬((false && hexLetter c) = true) := by simp
          simp only [scanMant, if_neg hne1, if_neg hdot, if_neg hdig, if_neg hhex]
          exact ⟨hsg, hu, .inr ⟨c, cs, he, rfl, hexp⟩⟩
        · simp only [decLit, if_neg hdig, if_neg hdot, if_neg he] at hd
          cases hd

/-- The decimal branch of the readFloat model accepts every spec-side
decimal literal body. -/
theorem decAccept_of_decLit (s : String) (neg : Bool) (cs : List Char)
    (h : decLit cs false false = true) : ∃ v, decAccept s neg cs = some v := by
  have hm := scanMant_of_decLit cs {} rfl (by simpa using h)
  rcases hsm : scanMant false cs {} with ⟨st, rest⟩
  rw [hsm] at hm
  dsimp only at hm
  obtain ⟨hsg, hu, hrest⟩ := hm
  unfold decAccept
  rw [hsm]
  dsimp only
  simp only [hsg, Bool.not_true, Bool.false_eq_true, if_false]
  rcases hrest with hnil | ⟨c, t, hce, hct, hexp⟩
  · subst hnil
    simp [hu]
  · subst hct
    dsimp only
    obtain ⟨eneg, e, hea⟩ := expAccept_of_expLit t hexp
    rw [if_pos hce, hea]
    simp [hu]

/-- The character after a leading zero of a spec-side decimal literal is
a digit, a decimal point or an exponent marker. -/
theorem decLit_second (x : Char) (t : List Char)
    (h : decLit ('0' :: x :: t) false false = true) :
    x.isDigit = true ∨ x = '.' ∨ x = 'e' ∨ x = 'E' := by
  have h0 : ('0' : Char).isDigit = true := by decide
  simp only [decLit, if_pos h0] at h
  by_cases h1 : x.isDigit = true
  · exact .inl h1
  · rw [if_neg h1] at h
    by_cases h2 : x = '.'
    · exact .inr (.inl h2)
    · rw [if_neg h2] at h
      by_cases h3 : x = 'e' ∨ x = 'E'
      · rcases h3 with h3 | h3
        · exact .inr (.inr (.inl h3))
        · exact .inr (.inr (.inr h3))
      · rw [if_neg h3] at h
        cases h

/-- A spec-side decimal literal never carries the hexadecimal prefix:
after a leading zero the next character is a digit, a point or an
exponent marker, never x or X. -/
theorem hexPfxRest_none_of_decLit (cs : List Char)
    (h : decLit cs false false = true) : hexPfxRest cs = none := by
  rcases cs with _ | ⟨c0, _ | ⟨x, _ | ⟨c, rest⟩⟩⟩
  · rfl
  · rfl
  · rfl
  · unfold hexPfxRest
    dsimp only
    rw [if_neg]
    rintro ⟨rfl, hx⟩
    have hsec := decLit_second x (c :: rest) h
    rcases hx with rfl | rfl <;>
      rcases hsec with h' | h' | h' | h' <;> simp at h'

/-- The ParseFloat model accepts every string in standard
decimal/exponential notation. -/
theorem goParseFloat_decimal_ok (s : String) (h : decimalFloatLit s = true) :
    ∃ v, goParseFloat s = .ok v := by
  by_cases hsp : isSpecialFloat s = true
  · exact ⟨specialFloatVal s, by simp [goParseFloat, hsp]⟩
  · unfold goParseFloat
    rw [if_neg hsp]
    rcases hp : signSplit s.data with ⟨neg, cs⟩
    unfold decimalFloatLit at h
    rw [hp] at h
    dsimp only at h ⊢
    rw [hexPfxRest_none_of_decLit cs h]
    obtain ⟨v, hv⟩ := decAccept_of_decLit s neg cs h
    rw [hv]
    exact ⟨v, rfl⟩

/-- Without any decimal digit in the input, the mantissa scanner never
sets its digit flag. -/
theorem scanMant_nodigit :
    ∀ (cs : List Char) (st : MantScan), cs.all (fun c => !c.isDigit) = true →
      (scanMant false cs st).1.sawdig = st.sawdig := by
  intro cs
  induction cs with
  | nil =>
    intro st _
    rfl
  | cons c t ih =>
    intro st h
    rw [List.all_cons, Bool.and_eq_true] at h
    obtain ⟨hc, ht⟩ := h
    have hcd : ¬(c.isDigit = true) := by simpa using hc
    by_cases h1 : c = '_'
    · subst h1
      simp only [scanMant, if_pos rfl]
      exact ih _ ht
    · by_cases h2 : c = '.'
      · subst h2
        simp only [scanMant, if_neg (by decide : ¬(('.' : Char) = '_')), if_true]
        by_cases hsd : st.sawdot = true
        · rw [if_pos hsd]
        · rw [if_neg hsd]
          exact ih _ ht
      · have hhex : ¬((false && hexLetter c) = true) := by simp
        simp only [scanMant, if_neg h1, if_neg h2, if_neg hcd, if_neg hhex]

/-- The sign-stripped part of a list keeps any all-characters property. -/
theorem signSplit_all (cs : List Char) (p : Char → Bool) (h : cs.all p = true) :
    (signSplit cs).2.all p = true := by
  unfold signSplit
  split <;> simp_all [List.all_cons]

/-- Without any decimal digit there is no 0x prefix either. -/
theorem hexPfxRest_none_of_nodigit (cs : List Char)
    (h : cs.all (fun c => !c.isDigit) = true) : hexPfxRest cs = none := by
  rcases cs with _ | ⟨c0, _ | ⟨x, _ | ⟨c, rest⟩⟩⟩
  · rfl
  · rfl
  · rfl
  · unfold hexPfxRest
    dsimp only
    rw [if_neg]
    rintro ⟨rfl, -⟩
    rw [List.all_cons, Bool.and_eq_true] at h
    have := h.1
    simp at this

/-- The ParseFloat model rejects clearly non-numeric input: a string
without a single decimal digit that is not one of the special spellings
is a syntax error. -/
theorem goParseFloat_nodigit_error (s : String) (h1 : hasNoDigit s = true)
    (h2 : isSpecialFloat s = false) :
    goParseFloat s = .error "invalid syntax" := by
  unfold goParseFloat
  rw [if_neg (by simp [h2])]
  rcases hp : signSplit s.data with ⟨neg, cs⟩
  have hcs : cs.all (fun c => !c.isDigit) = true := by
    unfold hasNoDigit at h1
    have hall := signSplit_all s.data _ h1
    rw [hp] at hall
    exact hall
  dsimp only
  rw [hexPfxRest_none_of_nodigit cs hcs]
  have hd : decAccept s neg cs = none := by
    unfold decAccept
    rcases hsm : scanMant false cs {} with ⟨st, rest⟩
    have hsd := scanMant_nodigit cs {} hcs
    rw [hsm] at hsd
    dsimp only at hsd
    dsimp only
    simp [hsd]
  simp [hd]

/-- An Except that is not a success is a failure. -/
theorem error_of_not_ok {α : Type} (m : Except String α) (h : ¬∃ v, m = .ok v) :
    ∃ e, m = .error e := by
  cases m with
  | error e => exact ⟨e, rfl⟩
  | ok v => exact absurd ⟨v, rfl⟩ h

/-- C5: the value codec per type. Text always succeeds with the raw
string unchanged. Booleans succeed exactly on the platform's canonical
truthy/falsy spellings and error otherwise. The signed types (int at the
64-bit platform width, int64) parse an optionally signed base-10 digit
run and succeed exactly when the value fits the signed 64-bit range; the
unsigned types (uint at the 64-bit platform width, uint64) parse an
unsigned base-10 digit run and succeed exactly when the value fits 64
bits; outside those grammars or ranges they error. Floating point
accepts every string in standard decimal/exponential notation and errors
on non-numeric input (no digit at all and no special spelling). -/
theorem C5_value_codec (s : String) :
    parse Tag.str s = .ok (.str s) ∧
    (parse Tag.bool s = .ok (.bool true) ↔
      (s = "1" ∨ s = "t" ∨ s = "T" ∨ s = "true" ∨ s = "TRUE" ∨ s = "True")) ∧
    (parse Tag.bool s = .ok (.bool false) ↔
      (s = "0" ∨ s = "f" ∨ s = "F" ∨ s = "false" ∨ s = "FALSE" ∨ s = "False")) ∧
    ((∃ e, parse Tag.bool s = .error e) ↔
      ¬((s = "1" ∨ s = "t" ∨ s = "T" ∨ s = "true" ∨ s = "TRUE" ∨ s = "True") ∨
        (s = "0" ∨ s = "f" ∨ s = "F" ∨ s = "false" ∨ s = "FALSE" ∨ s = "False"))) ∧
    ((∃ v, parse Tag.int s = .ok v) ↔
      (isIntLit s = true ∧ -(2 ^ 63) ≤ intLitVal s ∧ intLitVal s < 2 ^ 63)) ∧
    (isIntLit s = true → -(2 ^ 63) ≤ intLitVal s → intLitVal s < 2 ^ 63 →
      parse Tag.int s = .ok (.int (intLitVal s))) ∧
    ((∃ v, parse Tag.int64 s = .ok v) ↔
      (isIntLit s = true ∧ -(2 ^ 63) ≤ intLitVal s ∧ intLitVal s < 2 ^ 63)) ∧
    (isIntLit s = true → -(2 ^ 63) ≤ intLitVal s → intLitVal s < 2 ^ 63 →
      parse Tag.int64 s = .ok (.int64 (intLitVal s))) ∧
    ((∃ v, parse Tag.uint s = .ok v) ↔
      (isUintLit s = true ∧ uintLitVal s < 2 ^ 64)) ∧
    (isUintLit s = true → uintLitVal s < 2 ^ 64 →
      parse Tag.uint s = .ok (.uint (uintLitVal s))) ∧
    ((∃ v, parse Tag.uint64 s = .ok v) ↔
      (isUintLit s = true ∧ uintLitVal s < 2 ^ 64)) ∧
    (isUintLit s = true → uintLitVal s < 2 ^ 64 →
      parse Tag.uint64 s = .ok (.uint64 (uintLitVal s))) ∧
    (¬(isIntLit s = true ∧ -(2 ^ 63) ≤ intLitVal s ∧ intLitVal s < 2 ^ 63) →
      ∃ e, parse Tag.int64 s = .error e) ∧
    (¬(isUintLit s = true ∧ uintLitVal s < 2 ^ 64) →
      ∃ e, parse Tag.uint64 s = .error e) ∧
    (decimalFloatLit s = true → ∃ v, parse Tag.float64 s = .ok v) ∧
    (hasNoDigit s = true → isSpecialFloat s = false →
      parse Tag.float64 s = .error "invalid syntax") := by
  obtain ⟨hT, hF, hE⟩ := goParseBool_char s
  obtain ⟨hIiff, hIval⟩ := goParseInt64_char s
  obtain ⟨hUiff, hUval⟩ := goParseUint64_char s
  have hmapT : ((goParseBool s).map FlagVal.bool = .ok (.bool true)) ↔
      goParseBool s = .ok true := by
    cases hgb : goParseBool s <;> simp [Except.map]
  have hmapF : ((goParseBool s).map FlagVal.bool = .ok (.bool false)) ↔
      goParseBool s = .ok false := by
    cases hgb : goParseBool s <;> simp [Except.map]
  have hmapE : ((∃ e, (goParseBool s).map FlagVal.bool = .error e) ↔
      ∃ e, goParseBool s = .error e) := by
    cases hgb : goParseBool s <;> simp [Except.map]
  simp only [parse]
  refine ⟨trivial, hmapT.trans hT, hmapF.trans hF, hmapE.trans hE,
    (map_ok_iff _ _).trans hIiff,
    fun h1 h2 h3 => map_ok_val _ _ _ (hIval h1 h2 h3),
    (map_ok_iff _ _).trans hIiff,
    fun h1 h2 h3 => map_ok_val _ _ _ (hIval h1 h2 h3),
    (map_ok_iff _ _).trans hUiff,
    fun h1 h2 => map_ok_val _ _ _ (hUval h1 h2),
    (map_ok_iff _ _).trans hUiff,
    fun h1 h2 => map_ok_val _ _ _ (hUval h1 h2),
    fun hn => error_of_not_ok _
      (fun hok => hn (hIiff.mp ((map_ok_iff _ _).mp hok))),
    fun hn => error_of_not_ok _
      (fun hok => hn (hUiff.mp ((map_ok_iff _ _).mp hok))),
    ?_, ?_⟩
  · intro h
    obtain ⟨v, hv⟩ := goParseFloat_decimal_ok s h
    exact ⟨.float64 v, map_ok_val _ _ _ hv⟩
  · intro h1 h2
    rw [goParseFloat_nodigit_error s h1 h2]
    rfl

/-- Witness for C5 at concrete inputs, one per interesting case: text
identity, a truthy and a falsy boolean and a boolean error, in-range and
out-of-range signed values at the 64-bit boundary, in-range and
out-of-range unsigned values at the 64-bit boundary, a decimal and an
exponential float success and a non-numeric float error. -/
theorem C5_value_codec_witness :
    parse Tag.str "hi there" = .ok (.str "hi there") ∧
    parse Tag.bool "True" = .ok (.bool true) ∧
    parse Tag.bool "0" = .ok (.bool false) ∧
    (∃ e, parse Tag.bool "yes" = .error e) ∧
    parse Tag.int "-42" = .ok (.int (-42)) ∧
    parse Tag.int64 "9223372036854775807" = .ok (.int64 9223372036854775807) ∧
    (∃ e, parse Tag.int64 "9223372036854775808" = .error e) ∧
    (∃ e, parse Tag.int64 "12x" = .error e) ∧
    parse Tag.uint64 "18446744073709551615" = .ok (.uint64 18446744073709551615) ∧
    (∃ e, parse Tag.uint64 "18446744073709551616" = .error e) ∧
    (∃ e, parse Tag.uint64 "-1" = .error e) ∧
    (∃ v, parse Tag.float64 "3.25" = .ok v) ∧
    (∃ v, parse Tag.float64 "-1.5e10" = .ok v) ∧
    parse Tag.float64 "abc" = .error "invalid syntax" := by
  refine ⟨(C5_value_codec "hi there").1,
    (C5_value_codec "True").2.1.mpr (by simp),
    (C5_value_codec "0").2.2.1.mpr (by simp),
    (C5_value_codec "yes").2.2.2.1.mpr (by simp),
    ?_, ?_,
    (C5_value_codec "9223372036854775808").2.2.2.2.2.2.2.2.2.2.2.2.1
      (by decide),
    (C5_value_codec "12x").2.2.2.2.2.2.2.2.2.2.2.2.1 (by decide),
    ?_,
    (C5_value_codec "18446744073709551616").2.2.2.2.2.2.2.2.2.2.2.2.2.1
      (by decide),
    (C5_value_codec "-1").2.2.2.2.2.2.2.2.2.2.2.2.2.1 (by decide),
    (C5_value_codec "3.25").2.2.2.2.2.2.2.2.2.2.2.2.2.2.1 (by decide),
    (C5_value_codec "-1.5e10").2.2.2.2.2.2.2.2.2.2.2.2.2.2.1 (by decide),
    (C5_value_codec "abc").2.2.2.2.2.2.2.2.2.2.2.2.2.2.2 (by decide) (by decide)⟩
  · exact (C5_value_codec "-42").2.2.2.2.2.1 (by decide) (by decide) (by decide)
  · exact (C5_value_codec "9223372036854775807").2.2.2.2.2.2.2.1
      (by decide) (by decide) (by decide)
  · exact (C5_value_codec "18446744073709551615").2.2.2.2.2.2.2.2.2.2.2.1
      (by decide) (by decide)

end Fluentflag
